/-
Verification of the 2-D Beamforming Simulator's array-physics core.

Shallow embedding of the repository's source (src/phased_array.py,
src/system_controller.py, and the Grid Manager post-processing pipeline) into
Lean 4.  NumPy arrays are modelled as lists of reals, complex NumPy values as
Lean Complex numbers, and in-place mutation as functional state update.
-/
import Mathlib

noncomputable section

/-! ## List minimum / maximum (models np.min / np.max over a non-empty array) -/

/-- Maximum of a list of reals; 0 on the empty list (np.max raises there, but
every use in the embedding is over a non-empty list). -/
def listMax : List ℝ → ℝ
  | [] => 0
  | a :: t => t.foldl max a

/-- Minimum of a list of reals; 0 on the empty list. -/
def listMin : List ℝ → ℝ
  | [] => 0
  | a :: t => t.foldl min a

lemma le_foldl_max (t : List ℝ) (a : ℝ) : a ≤ t.foldl max a := by
  induction t generalizing a with
  | nil => exact le_refl a
  | cons b t ih => exact le_trans (le_max_left a b) (ih (max a b))

lemma mem_le_foldl_max (t : List ℝ) (a x : ℝ) (hx : x ∈ t) : x ≤ t.foldl max a := by
  induction t generalizing a with
  | nil => cases hx
  | cons b t ih =>
    rcases List.mem_cons.mp hx with h | h
    · subst h
      exact le_trans (le_max_right a x) (le_foldl_max t (max a x))
    · exact ih (max a b) h

lemma le_listMax (l : List ℝ) (x : ℝ) (hx : x ∈ l) : x ≤ listMax l := by
  cases l with
  | nil => cases hx
  | cons a t =>
    rcases List.mem_cons.mp hx with h | h
    · subst h; exact le_foldl_max t x
    · exact mem_le_foldl_max t a x h

lemma foldl_min_le (t : List ℝ) (a : ℝ) : t.foldl min a ≤ a := by
  induction t generalizing a with
  | nil => exact le_refl a
  | cons b t ih => exact le_trans (ih (min a b)) (min_le_left a b)

lemma foldl_min_le_mem (t : List ℝ) (a x : ℝ) (hx : x ∈ t) : t.foldl min a ≤ x := by
  induction t generalizing a with
  | nil => cases hx
  | cons b t ih =>
    rcases List.mem_cons.mp hx with h | h
    · subst h
      exact le_trans (foldl_min_le t (min a x)) (min_le_right a x)
    · exact ih (min a b) h

lemma listMin_le (l : List ℝ) (x : ℝ) (hx : x ∈ l) : listMin l ≤ x := by
  cases l with
  | nil => cases hx
  | cons a t =>
    rcases List.mem_cons.mp hx with h | h
    · subst h; exact foldl_min_le t x
    · exact foldl_min_le_mem t a x h

/-! ## Generic helpers -/

/-- A left fold that adds `f i` for each `i` in `range n` equals the finite sum,
connecting the Python accumulation loops to closed-form sums. -/
lemma foldl_add_eq_sum {M : Type*} [AddCommMonoid M] (f : ℕ → M) (n : ℕ) :
    (List.range n).foldl (fun acc i => acc + f i) 0 = ∑ i in Finset.range n, f i := by
  induction n with
  | zero => simp
  | succ n ih =>
    rw [List.range_succ, List.foldl_append, ih, Finset.sum_range_succ]
    simp

/-- Evaluating `(List.range n).map f` at an index below `n`. -/
lemma getD_range_map {α : Type*} (f : ℕ → α) (n i : ℕ) (hi : i < n) (d : α) :
    ((List.range n).map f).getD i d = f i := by
  rw [List.getD_eq_getElem?_getD, List.getElem?_map, List.getElem?_range hi]
  rfl

/-! ## PhasedArray (src/phased_array.py, the active class)

State of the Python `PhasedArray` object: NumPy 1-D arrays become lists of
reals, scalars become reals. -/

structure PhasedArray where
  id : ℤ
  num_elements : ℕ
  curvature : ℝ
  frequencies : List ℝ
  x_coords : List ℝ
  y_coords : List ℝ
  phases : List ℝ
  c : ℝ

/-- PhasedArray.__init__: frequencies start at 1e9 for every element, all
coordinates and phases at zero, propagation speed 3e8. -/
def PhasedArray.init (id : ℤ) (num_elements : ℕ) (curvature : ℝ) : PhasedArray :=
  { id := id
    num_elements := num_elements
    curvature := curvature
    frequencies := List.replicate num_elements 1e9
    x_coords := List.replicate num_elements 0
    y_coords := List.replicate num_elements 0
    phases := List.replicate num_elements 0
    c := 3e8 }

/-- PhasedArray.update_frequencies: a list whose length differs from the
element count is repaired by broadcasting its first entry (1e9 if empty);
a matching-length list is stored as given. -/
def PhasedArray.update_frequencies (pa : PhasedArray) (freq_list : List ℝ) : PhasedArray :=
  if freq_list.length ≠ pa.num_elements then
    { pa with frequencies := List.replicate pa.num_elements (freq_list.headD 1e9) }
  else
    { pa with frequencies := freq_list }

/-- np.linspace over the reals: n evenly spaced samples from a to b.
For n = 1 the step divides by zero, which in Lean's reals yields 0, so the
single sample is a, matching NumPy's special case. -/
def linspace (a b : ℝ) (n : ℕ) : List ℝ :=
  (List.range n).map (fun (i : ℕ) => a + (i : ℝ) * ((b - a) / ((n : ℝ) - 1)))

/-- The nominal minimum frequency used by generate_geometry:
np.min(self.frequencies) if the array is non-empty, else 1e9. -/
def PhasedArray.min_freq (pa : PhasedArray) : ℝ :=
  if pa.frequencies = [] then 1e9 else listMin pa.frequencies

/-- PhasedArray.generate_geometry: linear placement when curvature = 0,
a circular arc of radius 1/curvature otherwise. -/
def PhasedArray.generate_geometry (pa : PhasedArray) (spacing curvature : ℝ) : PhasedArray :=
  let nominal_lambda := pa.c / pa.min_freq
  let d := spacing * nominal_lambda
  if curvature = 0 then
    { pa with
      curvature := curvature
      x_coords := (List.range pa.num_elements).map
        (fun (i : ℕ) => ((i : ℝ) - ((pa.num_elements : ℝ) - 1) / 2) * d)
      y_coords := List.replicate pa.num_elements 0 }
  else
    let R := 1 / curvature
    let arc_length := ((pa.num_elements : ℝ) - 1) * d
    let total_angle := arc_length / R
    let angles := linspace (-total_angle / 2) (total_angle / 2) pa.num_elements
    { pa with
      curvature := curvature
      x_coords := angles.map (fun a => R * Real.sin a)
      y_coords := angles.map (fun a => R * Real.cos a - R) }

/-- Per-element wavenumber vector: k_vec = 2 pi * frequencies / c. -/
def k_vec (pa : PhasedArray) (i : ℕ) : ℝ :=
  2 * Real.pi * pa.frequencies.getD i 0 / pa.c

/-- Euclidean distance from element j to the point (tx, ty), as computed in
the focusing branch of compute_phases. -/
def distTo (pa : PhasedArray) (tx ty : ℝ) (j : ℕ) : ℝ :=
  Real.sqrt ((pa.x_coords.getD j 0 - tx) ^ 2 + (pa.y_coords.getD j 0 - ty) ^ 2)

/-- np.max of the element-to-target distances. -/
def maxDistTo (pa : PhasedArray) (tx ty : ℝ) : ℝ :=
  listMax ((List.range pa.num_elements).map (distTo pa tx ty))

/-- PhasedArray.compute_phases: total phase is the sum of an optional steering
term -k_i * x_i * sin(deg2rad steer_angle) and an optional focusing term
k_i * (max_dist - dist_i); either absent input contributes zero. -/
def PhasedArray.compute_phases (pa : PhasedArray) (steer_angle : Option ℝ)
    (focal_point : Option (ℝ × ℝ)) : PhasedArray :=
  let steer : ℕ → ℝ := fun i =>
    match steer_angle with
    | some θ => -(k_vec pa i) * pa.x_coords.getD i 0 * Real.sin (θ * Real.pi / 180)
    | none => 0
  let focus : ℕ → ℝ := fun i =>
    match focal_point with
    | some (tx, ty) => k_vec pa i * (maxDistTo pa tx ty - distTo pa tx ty i)
    | none => 0
  { pa with phases := (List.range pa.num_elements).map (fun i => steer i + focus i) }

/-- Element-to-grid-point distance clamped below by 1e-6, as in
get_electric_field (r = np.maximum(r, 1e-6)). -/
def clampedDist (pa : PhasedArray) (p : ℝ × ℝ) (i : ℕ) : ℝ :=
  max (Real.sqrt ((p.1 - pa.x_coords.getD i 0) ^ 2 + (p.2 - pa.y_coords.getD i 0) ^ 2)) 1e-6

/-- One element's contribution to the electric field at a grid point:
(1/r) * exp(1j * (k_i * r + phase_i)) with the clamped distance r. -/
def fieldContrib (pa : PhasedArray) (p : ℝ × ℝ) (i : ℕ) : ℂ :=
  ((1 / clampedDist pa p i : ℝ) : ℂ) *
    Complex.exp (Complex.I * ((k_vec pa i * clampedDist pa p i + pa.phases.getD i 0 : ℝ) : ℂ))

/-- The accumulation loop of get_electric_field at a single grid point. -/
def fieldAt (pa : PhasedArray) (p : ℝ × ℝ) : ℂ :=
  (List.range pa.num_elements).foldl (fun acc i => acc + fieldContrib pa p i) 0

/-- PhasedArray.get_electric_field over a (flattened) grid of sample points. -/
def PhasedArray.get_electric_field (pa : PhasedArray) (grid : List (ℝ × ℝ)) : List ℂ :=
  grid.map (fieldAt pa)

/-- One element's far-field phasor at azimuth angle theta (degrees):
exp(1j * (k_i * (x_i * sin(deg2rad theta)) + phase_i)). -/
def responseTerm (pa : PhasedArray) (θ : ℝ) (i : ℕ) : ℂ :=
  Complex.exp (Complex.I *
    ((k_vec pa i * (pa.x_coords.getD i 0 * Real.sin (θ * Real.pi / 180)) +
      pa.phases.getD i 0 : ℝ) : ℂ))

/-- The per-angle accumulation loop of calculate_azimuth_profile, followed by
np.abs: magnitude of the complex phasor sum at one azimuth angle. -/
def responseAt (pa : PhasedArray) (θ : ℝ) : ℝ :=
  Complex.abs ((List.range pa.num_elements).foldl (fun acc i => acc + responseTerm pa θ i) 0)

/-- PhasedArray.calculate_azimuth_profile: far-field response magnitude for
each requested azimuth angle in degrees. -/
def PhasedArray.calculate_azimuth_profile (pa : PhasedArray) (angles_deg : List ℝ) : List ℝ :=
  angles_deg.map (responseAt pa)

/-! ## AntennaElement and the element-based SystemController
(src/beamforming/antenna_element.py and src/system_controller.py) -/

structure AntennaElement where
  x_position : ℝ
  y_position : ℝ
  frequency : ℝ
  phase_shift : ℝ

/-- AntennaElement.set_frequency. -/
def AntennaElement.set_frequency (e : AntennaElement) (freq : ℝ) : AntennaElement :=
  { e with frequency := freq }

/-- AntennaElement.set_phase. -/
def AntennaElement.set_phase (e : AntennaElement) (phi : ℝ) : AntennaElement :=
  { e with phase_shift := phi }

/-- The element-based phased-array variant addressed by SystemController
(src/system_controller.py reads array.elements[element_id]); only the fields
that the element-addressed operations touch are modelled. -/
structure ElemArray where
  id : ℤ
  elements : List AntennaElement

structure SystemController where
  arrays : List ElemArray

/-- SystemController._is_valid_array_id: 0 <= array_id < len(self.arrays).
Python indices are ints, so the lower bound is part of the check. -/
def SystemController.is_valid_array_id (s : SystemController) (array_id : ℤ) : Bool :=
  decide (0 ≤ array_id) && decide (array_id < (s.arrays.length : ℤ))

/-- SystemController._is_valid_element_id. -/
def SystemController.is_valid_element_id (s : SystemController) (array_id element_id : ℤ) :
    Bool :=
  if !s.is_valid_array_id array_id then false
  else
    decide (0 ≤ element_id) &&
      decide (element_id < ((s.arrays.getD array_id.toNat ⟨0, []⟩).elements.length : ℤ))

/-- SystemController.update_element_frequency: guarded by the validity check;
on success sets the addressed element's frequency and returns True, otherwise
returns False leaving the state untouched. -/
def SystemController.update_element_frequency (s : SystemController)
    (array_id element_id : ℤ) (freq : ℝ) : Bool × SystemController :=
  if s.is_valid_element_id array_id element_id then
    let a := s.arrays.getD array_id.toNat ⟨0, []⟩
    let e := a.elements.getD element_id.toNat ⟨0, 0, 0, 0⟩
    let a2 := { a with elements := a.elements.set element_id.toNat (e.set_frequency freq) }
    (true, { arrays := s.arrays.set array_id.toNat a2 })
  else
    (false, s)

/-- SystemController.update_element_phase: same guard, sets the phase. -/
def SystemController.update_element_phase (s : SystemController)
    (array_id element_id : ℤ) (phi : ℝ) : Bool × SystemController :=
  if s.is_valid_element_id array_id element_id then
    let a := s.arrays.getD array_id.toNat ⟨0, []⟩
    let e := a.elements.getD element_id.toNat ⟨0, 0, 0, 0⟩
    let a2 := { a with elements := a.elements.set element_id.toNat (e.set_phase phi) }
    (true, { arrays := s.arrays.set array_id.toNat a2 })
  else
    (false, s)

/-! ## Grid Manager post-processing (modelled from the spec) -/

/-- Modelled from the spec: the min-max normalization step of the Grid
Manager's calculate_total_field (the SystemController variant that defines it
is not among the source files; only its callers in src/callbacks/callbacks.py
and src/beamforming_app.py are).  If max - min is below a tiny epsilon the
result is an all-zero array, otherwise each value maps to (v - min)/(max - min). -/
def normalize01 (vals : List ℝ) : List ℝ :=
  let m := listMin vals
  let M := listMax vals
  if M - m < 1e-12 then List.replicate vals.length 0
  else vals.map (fun v => (v - m) / (M - m))

/-- Modelled from the spec: GridManager.calculate_total_field - evaluate the
array's raw field over the grid, take the absolute value, apply log1p
compression, then min-max normalize to the unit interval. -/
def calculate_total_field (pa : PhasedArray) (grid : List (ℝ × ℝ)) : List ℝ :=
  normalize01 (((pa.get_electric_field grid).map Complex.abs).map (fun v => Real.log (1 + v)))

/-! ## Unfolding lemmas for generate_geometry -/

lemma min_freq_of_ne (pa : PhasedArray) (hne : pa.frequencies ≠ []) :
    pa.min_freq = listMin pa.frequencies := by
  simp [PhasedArray.min_freq, hne]

lemma generate_geometry_zero (pa : PhasedArray) (s : ℝ) :
    pa.generate_geometry s 0 =
      { pa with
        curvature := 0
        x_coords := (List.range pa.num_elements).map
          (fun (i : ℕ) => ((i : ℝ) - ((pa.num_elements : ℝ) - 1) / 2) * (s * (pa.c / pa.min_freq)))
        y_coords := List.replicate pa.num_elements 0 } := by
  simp [PhasedArray.generate_geometry]

lemma generate_geometry_arc (pa : PhasedArray) (s cv : ℝ) (hcv : cv ≠ 0) :
    pa.generate_geometry s cv =
      { pa with
        curvature := cv
        x_coords := (linspace
            (-(((pa.num_elements : ℝ) - 1) * (s * (pa.c / pa.min_freq)) / (1 / cv)) / 2)
            (((pa.num_elements : ℝ) - 1) * (s * (pa.c / pa.min_freq)) / (1 / cv) / 2)
            pa.num_elements).map (fun a => (1 / cv) * Real.sin a)
        y_coords := (linspace
            (-(((pa.num_elements : ℝ) - 1) * (s * (pa.c / pa.min_freq)) / (1 / cv)) / 2)
            (((pa.num_elements : ℝ) - 1) * (s * (pa.c / pa.min_freq)) / (1 / cv) / 2)
            pa.num_elements).map (fun a => (1 / cv) * Real.cos a - 1 / cv) } := by
  simp only [PhasedArray.generate_geometry]
  rw [if_neg hcv]

/-- C4: with curvature 0, generate_geometry places element i at lateral
position (i - (N-1)/2) * d with d = spacing * (c / min(frequencies)) and
depth 0; the lateral positions are symmetric about 0 (x_i + x_(N-1-i) = 0)
and evenly spaced by d. -/
theorem C4_linear_geometry (pa : PhasedArray) (s : ℝ) (i : ℕ)
    (hi : i < pa.num_elements) (hne : pa.frequencies ≠ []) :
    (pa.generate_geometry s 0).x_coords.getD i 0 =
      ((i : ℝ) - ((pa.num_elements : ℝ) - 1) / 2) * (s * (pa.c / listMin pa.frequencies)) ∧
    (pa.generate_geometry s 0).y_coords.getD i 0 = 0 ∧
    (pa.generate_geometry s 0).x_coords.getD i 0 +
      (pa.generate_geometry s 0).x_coords.getD (pa.num_elements - 1 - i) 0 = 0 ∧
    (i + 1 < pa.num_elements →
      (pa.generate_geometry s 0).x_coords.getD (i + 1) 0 -
        (pa.generate_geometry s 0).x_coords.getD i 0 =
        s * (pa.c / listMin pa.frequencies)) := by
  rw [generate_geometry_zero, min_freq_of_ne pa hne]
  have h1 : 1 ≤ pa.num_elements := Nat.one_le_iff_ne_zero.mpr (by omega)
  have hj : pa.num_elements - 1 - i < pa.num_elements := by omega
  have hcast : ((pa.num_elements - 1 - i : ℕ) : ℝ) = (pa.num_elements : ℝ) - 1 - (i : ℝ) := by
    push_cast [Nat.cast_sub (by omega : i ≤ pa.num_elements - 1), Nat.cast_sub h1]
    ring
  refine ⟨?_, ?_, ?_, ?_⟩
  · rw [getD_range_map _ _ _ hi]
  · simp
  · rw [getD_range_map _ _ _ hi, getD_range_map _ _ _ hj, hcast]
    ring
  · intro hi1
    rw [getD_range_map _ _ _ hi1, getD_range_map _ _ _ hi]
    push_cast
    ring

/-- Witness for C4 at a concrete two-element array. -/
theorem C4_linear_geometry_witness :
    0 < (PhasedArray.init 1 2 0).num_elements ∧
    ((PhasedArray.init 1 2 0).generate_geometry 0.5 0).x_coords.getD 0 0 =
      ((0 : ℕ) - (((PhasedArray.init 1 2 0).num_elements : ℝ) - 1) / 2) *
        (0.5 * ((PhasedArray.init 1 2 0).c / listMin (PhasedArray.init 1 2 0).frequencies)) ∧
    ((PhasedArray.init 1 2 0).generate_geometry 0.5 0).y_coords.getD 0 0 = 0 ∧
    ((PhasedArray.init 1 2 0).generate_geometry 0.5 0).x_coords.getD 0 0 +
      ((PhasedArray.init 1 2 0).generate_geometry 0.5 0).x_coords.getD
        ((PhasedArray.init 1 2 0).num_elements - 1 - 0) 0 = 0 ∧
    (0 + 1 < (PhasedArray.init 1 2 0).num_elements →
      ((PhasedArray.init 1 2 0).generate_geometry 0.5 0).x_coords.getD (0 + 1) 0 -
        ((PhasedArray.init 1 2 0).generate_geometry 0.5 0).x_coords.getD 0 0 =
        0.5 * ((PhasedArray.init 1 2 0).c / listMin (PhasedArray.init 1 2 0).frequencies)) :=
  ⟨by simp [PhasedArray.init],
   C4_linear_geometry (PhasedArray.init 1 2 0) 0.5 0
     (by simp [PhasedArray.init]) (by simp [PhasedArray.init])⟩

/-! ## Phase computation lemmas -/

lemma compute_phases_steer_getD (pa : PhasedArray) (θ : ℝ) (i : ℕ)
    (hi : i < pa.num_elements) :
    (pa.compute_phases (some θ) none).phases.getD i 0 =
      -(k_vec pa i) * pa.x_coords.getD i 0 * Real.sin (θ * Real.pi / 180) := by
  simp only [PhasedArray.compute_phases]
  rw [getD_range_map _ _ _ hi]
  simp

lemma compute_phases_focus_getD (pa : PhasedArray) (tx ty : ℝ) (i : ℕ)
    (hi : i < pa.num_elements) :
    (pa.compute_phases none (some (tx, ty))).phases.getD i 0 =
      k_vec pa i * (maxDistTo pa tx ty - distTo pa tx ty i) := by
  simp only [PhasedArray.compute_phases]
  rw [getD_range_map _ _ _ hi]
  simp

/-- C5: with a steering angle and no focal point, the stored phase of element
i is -k_i * x_i * sin(steer_angle in radians); steer_angle 0 gives phase 0,
and opposite angles give elementwise opposite phases. -/
theorem C5_steering (pa : PhasedArray) (θ : ℝ) (i : ℕ) (hi : i < pa.num_elements) :
    (pa.compute_phases (some θ) none).phases.getD i 0 =
      -(k_vec pa i) * pa.x_coords.getD i 0 * Real.sin (θ * Real.pi / 180) ∧
    (pa.compute_phases (some 0) none).phases.getD i 0 = 0 ∧
    (pa.compute_phases (some (-θ)) none).phases.getD i 0 =
      -((pa.compute_phases (some θ) none).phases.getD i 0) := by
  refine ⟨compute_phases_steer_getD pa θ i hi, ?_, ?_⟩
  · rw [compute_phases_steer_getD pa 0 i hi]
    simp
  · rw [compute_phases_steer_getD pa (-θ) i hi, compute_phases_steer_getD pa θ i hi,
      show -θ * Real.pi / 180 = -(θ * Real.pi / 180) by ring, Real.sin_neg]
    ring

/-- Witness for C5 at a concrete two-element array steered to 30 degrees. -/
theorem C5_steering_witness :
    0 < (PhasedArray.init 1 2 0).num_elements ∧
    (((PhasedArray.init 1 2 0).compute_phases (some 30) none).phases.getD 0 0 =
      -(k_vec (PhasedArray.init 1 2 0) 0) * (PhasedArray.init 1 2 0).x_coords.getD 0 0 *
        Real.sin (30 * Real.pi / 180) ∧
    ((PhasedArray.init 1 2 0).compute_phases (some 0) none).phases.getD 0 0 = 0 ∧
    ((PhasedArray.init 1 2 0).compute_phases (some (-30)) none).phases.getD 0 0 =
      -(((PhasedArray.init 1 2 0).compute_phases (some 30) none).phases.getD 0 0)) :=
  ⟨by simp [PhasedArray.init],
   C5_steering (PhasedArray.init 1 2 0) 30 0 (by simp [PhasedArray.init])⟩

/-- C6: with a focal point and no steering angle, the stored phase of element
i is k_i * (max_distance - distance_i); with positive frequencies every phase
is non-negative and distance_i + phase_i / k_i equals max_distance. -/
theorem C6_focusing (pa : PhasedArray) (tx ty : ℝ) (i : ℕ)
    (hi : i < pa.num_elements) (hlen : pa.frequencies.length = pa.num_elements)
    (hpos : ∀ f ∈ pa.frequencies, 0 < f) (hc : 0 < pa.c) :
    (pa.compute_phases none (some (tx, ty))).phases.getD i 0 =
      k_vec pa i * (maxDistTo pa tx ty - distTo pa tx ty i) ∧
    0 ≤ (pa.compute_phases none (some (tx, ty))).phases.getD i 0 ∧
    distTo pa tx ty i +
      (pa.compute_phases none (some (tx, ty))).phases.getD i 0 / k_vec pa i =
      maxDistTo pa tx ty := by
  have h := compute_phases_focus_getD pa tx ty i hi
  have hilen : i < pa.frequencies.length := hlen ▸ hi
  have hmem : pa.frequencies.getD i 0 ∈ pa.frequencies := by
    rw [List.getD_eq_getElem pa.frequencies 0 hilen]
    exact List.getElem_mem hilen
  have hf : 0 < pa.frequencies.getD i 0 := hpos _ hmem
  have hk : 0 < k_vec pa i :=
    div_pos (mul_pos (mul_pos (by norm_num) Real.pi_pos) hf) hc
  have hdist : distTo pa tx ty i ≤ maxDistTo pa tx ty :=
    le_listMax _ _ (List.mem_map.mpr ⟨i, List.mem_range.mpr hi, rfl⟩)
  refine ⟨h, ?_, ?_⟩
  · rw [h]
    exact mul_nonneg hk.le (sub_nonneg.mpr hdist)
  · rw [h, mul_comm, mul_div_assoc, div_self hk.ne.symm, mul_one]
    ring

/-- Witness for C6 at a concrete one-element array focused at (0, 1). -/
theorem C6_focusing_witness :
    0 < (PhasedArray.init 1 1 0).num_elements ∧
    (((PhasedArray.init 1 1 0).compute_phases none (some (0, 1))).phases.getD 0 0 =
      k_vec (PhasedArray.init 1 1 0) 0 *
        (maxDistTo (PhasedArray.init 1 1 0) 0 1 - distTo (PhasedArray.init 1 1 0) 0 1 0) ∧
    0 ≤ ((PhasedArray.init 1 1 0).compute_phases none (some (0, 1))).phases.getD 0 0 ∧
    distTo (PhasedArray.init 1 1 0) 0 1 0 +
      ((PhasedArray.init 1 1 0).compute_phases none (some (0, 1))).phases.getD 0 0 /
        k_vec (PhasedArray.init 1 1 0) 0 =
      maxDistTo (PhasedArray.init 1 1 0) 0 1) :=
  ⟨by simp [PhasedArray.init],
   C6_focusing (PhasedArray.init 1 1 0) 0 1 0 (by simp [PhasedArray.init])
     (by simp [PhasedArray.init])
     (by intro f hf; simp [PhasedArray.init] at hf; subst hf; norm_num)
     (by norm_num [PhasedArray.init])⟩

/-- C8: a non-empty frequency list whose length differs from the element count
is broadcast from its first value; a matching-length list is stored as given. -/
theorem C8_frequency_broadcast (pa : PhasedArray) (l l2 : List ℝ)
    (hne : l ≠ []) (hlen : l.length ≠ pa.num_elements)
    (h2 : l2.length = pa.num_elements) :
    (pa.update_frequencies l).frequencies = List.replicate pa.num_elements (l.head hne) ∧
    (pa.update_frequencies l2).frequencies = l2 := by
  constructor
  · cases l with
    | nil => exact absurd rfl hne
    | cons a t =>
      unfold PhasedArray.update_frequencies
      rw [if_pos hlen]
      simp
  · simp [PhasedArray.update_frequencies, h2]

/-- Witness for C8: a length-1 list against a two-element array, and a
length-2 list stored verbatim. -/
theorem C8_frequency_broadcast_witness :
    ((5 : ℝ) :: []) ≠ [] ∧
    (((5 : ℝ) :: []).length ≠ (PhasedArray.init 1 2 0).num_elements ∧
    ((PhasedArray.init 1 2 0).update_frequencies ((5 : ℝ) :: [])).frequencies =
      List.replicate (PhasedArray.init 1 2 0).num_elements
        (((5 : ℝ) :: []).head (by simp)) ∧
    ((PhasedArray.init 1 2 0).update_frequencies ((7 : ℝ) :: (8 : ℝ) :: [])).frequencies =
      (7 : ℝ) :: (8 : ℝ) :: []) :=
  ⟨by simp, by simp [PhasedArray.init],
   (C8_frequency_broadcast (PhasedArray.init 1 2 0) ((5 : ℝ) :: [])
     ((7 : ℝ) :: (8 : ℝ) :: []) (by simp) (by simp [PhasedArray.init])
     (by simp [PhasedArray.init])).1,
   (C8_frequency_broadcast (PhasedArray.init 1 2 0) ((5 : ℝ) :: [])
     ((7 : ℝ) :: (8 : ℝ) :: []) (by simp) (by simp [PhasedArray.init])
     (by simp [PhasedArray.init])).2⟩

/-! ## Arc geometry (claim C2) -/

lemma getD_map_of_lt {α β : Type*} (f : α → β) (l : List α) (i : ℕ)
    (hi : i < l.length) (d : α) (d2 : β) :
    (l.map f).getD i d2 = f (l.getD i d) := by
  rw [List.getD_eq_getElem?_getD, List.getElem?_map, List.getElem?_eq_getElem hi,
    List.getD_eq_getElem l d hi]
  rfl

lemma linspace_length (a b : ℝ) (n : ℕ) : (linspace a b n).length = n := by
  simp [linspace]

lemma linspace_getD (a b : ℝ) (n i : ℕ) (hi : i < n) :
    (linspace a b n).getD i 0 = a + (i : ℝ) * ((b - a) / ((n : ℝ) - 1)) := by
  unfold linspace
  exact getD_range_map _ _ _ hi _

/-- The angle assigned to element i on the arc: the i-th of N angles evenly
spaced from -total_angle/2 to total_angle/2, where total_angle is the arc
length (N-1)*d divided by the radius 1/curvature. -/
def arcAngle (pa : PhasedArray) (s cv : ℝ) (i : ℕ) : ℝ :=
  -(((pa.num_elements : ℝ) - 1) * (s * (pa.c / pa.min_freq)) / (1 / cv)) / 2 +
    (i : ℝ) * ((((pa.num_elements : ℝ) - 1) * (s * (pa.c / pa.min_freq)) / (1 / cv)) /
      ((pa.num_elements : ℝ) - 1))

/-- C2 (amended): for curvature cv different from 0, generate_geometry places
element i at lateral position R*sin(angle_i) and depth R*cos(angle_i) - R
(the negative of the claimed R*(1 - cos angle_i)), with the angles evenly
spaced from -total_angle/2 to total_angle/2; every element lies at Euclidean
distance abs R from the arc center (0, -R), not (0, R). -/
theorem C2_arc_geometry (pa : PhasedArray) (s cv : ℝ) (hcv : cv ≠ 0) (i : ℕ)
    (hi : i < pa.num_elements) :
    (pa.generate_geometry s cv).x_coords.getD i 0 =
      (1 / cv) * Real.sin (arcAngle pa s cv i) ∧
    (pa.generate_geometry s cv).y_coords.getD i 0 =
      (1 / cv) * Real.cos (arcAngle pa s cv i) - 1 / cv ∧
    Real.sqrt (((pa.generate_geometry s cv).x_coords.getD i 0 - 0) ^ 2 +
      ((pa.generate_geometry s cv).y_coords.getD i 0 - -(1 / cv)) ^ 2) = |1 / cv| := by
  rw [generate_geometry_arc pa s cv hcv]
  have hlen : i < (linspace
      (-(((pa.num_elements : ℝ) - 1) * (s * (pa.c / pa.min_freq)) / (1 / cv)) / 2)
      (((pa.num_elements : ℝ) - 1) * (s * (pa.c / pa.min_freq)) / (1 / cv) / 2)
      pa.num_elements).length := by
    rw [linspace_length]
    exact hi
  have hang : (linspace
      (-(((pa.num_elements : ℝ) - 1) * (s * (pa.c / pa.min_freq)) / (1 / cv)) / 2)
      (((pa.num_elements : ℝ) - 1) * (s * (pa.c / pa.min_freq)) / (1 / cv) / 2)
      pa.num_elements).getD i 0 = arcAngle pa s cv i := by
    rw [linspace_getD _ _ _ _ hi]
    unfold arcAngle
    ring
  have hx : ((linspace
      (-(((pa.num_elements : ℝ) - 1) * (s * (pa.c / pa.min_freq)) / (1 / cv)) / 2)
      (((pa.num_elements : ℝ) - 1) * (s * (pa.c / pa.min_freq)) / (1 / cv) / 2)
      pa.num_elements).map (fun a => 1 / cv * Real.sin a)).getD i 0 =
      1 / cv * Real.sin (arcAngle pa s cv i) := by
    rw [getD_map_of_lt _ _ i hlen 0 0, hang]
  have hy : ((linspace
      (-(((pa.num_elements : ℝ) - 1) * (s * (pa.c / pa.min_freq)) / (1 / cv)) / 2)
      (((pa.num_elements : ℝ) - 1) * (s * (pa.c / pa.min_freq)) / (1 / cv) / 2)
      pa.num_elements).map (fun a => 1 / cv * Real.cos a - 1 / cv)).getD i 0 =
      1 / cv * Real.cos (arcAngle pa s cv i) - 1 / cv := by
    rw [getD_map_of_lt _ _ i hlen 0 0, hang]
  refine ⟨hx, hy, ?_⟩
  rw [hx, hy]
  have key : (1 / cv * Real.sin (arcAngle pa s cv i) - 0) ^ 2 +
      (1 / cv * Real.cos (arcAngle pa s cv i) - 1 / cv - -(1 / cv)) ^ 2 =
      (1 / cv) ^ 2 * (Real.sin (arcAngle pa s cv i) ^ 2 +
        Real.cos (arcAngle pa s cv i) ^ 2) := by
    ring
  rw [key, Real.sin_sq_add_cos_sq, mul_one, Real.sqrt_sq_eq_abs]

/-- Witness for the amended C2 at a concrete two-element arc. -/
theorem C2_arc_geometry_witness :
    (1 : ℝ) ≠ 0 ∧
    (((PhasedArray.init 1 2 0).generate_geometry 1 1).x_coords.getD 0 0 =
      (1 / 1) * Real.sin (arcAngle (PhasedArray.init 1 2 0) 1 1 0) ∧
    ((PhasedArray.init 1 2 0).generate_geometry 1 1).y_coords.getD 0 0 =
      (1 / 1) * Real.cos (arcAngle (PhasedArray.init 1 2 0) 1 1 0) - 1 / 1 ∧
    Real.sqrt ((((PhasedArray.init 1 2 0).generate_geometry 1 1).x_coords.getD 0 0 - 0) ^ 2 +
      (((PhasedArray.init 1 2 0).generate_geometry 1 1).y_coords.getD 0 0 - -(1 / 1)) ^ 2) =
      |(1 : ℝ) / 1|) :=
  ⟨one_ne_zero,
   C2_arc_geometry (PhasedArray.init 1 2 0) 1 1 one_ne_zero 0 (by simp [PhasedArray.init])⟩

/-- The state of the concrete two-element array after update_frequencies
with [3e8, 3e8]: nominal wavelength 1. -/
def arcCexBase : PhasedArray :=
  { id := 1, num_elements := 2, curvature := 0, frequencies := [3e8, 3e8],
    x_coords := [0, 0], y_coords := [0, 0], phases := [0, 0], c := 3e8 }

/-- A concrete curved array: two elements, frequencies 3e8 so the nominal
wavelength is 1, spacing pi and curvature 1, so the two elements sit at
angles -pi/2 and pi/2 on a radius-1 arc. -/
def arcCexArray : PhasedArray :=
  ((PhasedArray.init 1 2 0).update_frequencies [3e8, 3e8]).generate_geometry Real.pi 1

/-- Counterexample to C2 as stated: element 0 of the concrete curved array
sits at (-1, -1), whose depth is the negative of the claimed R*(1 - cos a)
= 1, and whose Euclidean distance from the claimed center (0, R) = (0, 1)
is sqrt 5, not R = 1. -/
theorem C2_counterexample :
    arcCexArray.x_coords.getD 0 0 = -1 ∧
    arcCexArray.y_coords.getD 0 0 = -1 ∧
    Real.sqrt ((arcCexArray.x_coords.getD 0 0 - 0) ^ 2 +
      (arcCexArray.y_coords.getD 0 0 - 1) ^ 2) ≠ 1 := by
  have hpa1 : (PhasedArray.init 1 2 0).update_frequencies [3e8, 3e8] = arcCexBase := by
    unfold PhasedArray.update_frequencies PhasedArray.init arcCexBase
    norm_num
    constructor <;> rfl
  have hmf : arcCexBase.min_freq = 3e8 := by
    simp [arcCexBase, PhasedArray.min_freq, listMin]
  have harc := C2_arc_geometry arcCexBase Real.pi 1 one_ne_zero 0
    (by simp [arcCexBase])
  have hang : arcAngle arcCexBase Real.pi 1 0 = -(Real.pi / 2) := by
    unfold arcAngle
    rw [hmf]
    simp [arcCexBase]
    norm_num
    ring
  have hx : arcCexArray.x_coords.getD 0 0 = -1 := by
    unfold arcCexArray
    rw [hpa1, harc.1, hang]
    rw [Real.sin_neg, Real.sin_pi_div_two]
    norm_num
  have hy : arcCexArray.y_coords.getD 0 0 = -1 := by
    unfold arcCexArray
    rw [hpa1, harc.2.1, hang]
    rw [Real.cos_neg, Real.cos_pi_div_two]
    norm_num
  refine ⟨hx, hy, ?_⟩
  rw [hx, hy]
  have h5 : Real.sqrt (((-1 : ℝ) - 0) ^ 2 + ((-1 : ℝ) - 1) ^ 2) = Real.sqrt 5 := by
    norm_num
  rw [h5]
  intro h
  have hsq : Real.sqrt 5 ^ 2 = 5 := Real.sq_sqrt (by norm_num)
  rw [h] at hsq
  norm_num at hsq

/-! ## Element-addressed operations on invalid indices (claim C9) -/

/-- C9 (amended): an element index outside [0, element_count) makes
update_element_frequency and update_element_phase return False and leave the
controller state unchanged; no InvalidArgument-class error is raised. -/
theorem C9_invalid_index_returns_false (s : SystemController) (array_id element_id : ℤ)
    (freq phi : ℝ)
    (h : element_id < 0 ∨
      (((s.arrays.getD array_id.toNat ⟨0, []⟩).elements.length : ℤ) ≤ element_id)) :
    s.update_element_frequency array_id element_id freq = (false, s) ∧
    s.update_element_phase array_id element_id phi = (false, s) := by
  have hval : s.is_valid_element_id array_id element_id = false := by
    unfold SystemController.is_valid_element_id
    cases hb : s.is_valid_array_id array_id with
    | false => simp [hb]
    | true =>
      simp only [hb, Bool.not_true, Bool.false_eq_true, if_false]
      rcases h with h | h
      · have hd : decide (0 ≤ element_id) = false := decide_eq_false (by omega)
        rw [hd, Bool.false_and]
      · have hd : decide (element_id <
            ((s.arrays.getD array_id.toNat ⟨0, []⟩).elements.length : ℤ)) = false :=
          decide_eq_false (by omega)
        rw [hd, Bool.and_false]
  constructor
  · unfold SystemController.update_element_frequency
    rw [hval]
    simp
  · unfold SystemController.update_element_phase
    rw [hval]
    simp

/-- A concrete controller: one array holding two antenna elements. -/
def sysCexController : SystemController :=
  ⟨[⟨0, [⟨0, 0, 500, 0⟩, ⟨0.005, 0, 500, 0⟩]⟩]⟩

/-- Witness for the amended C9: element index 5 against the two-element
array. -/
theorem C9_invalid_index_returns_false_witness :
    ((5 : ℤ) < 0 ∨
      (((sysCexController.arrays.getD (0 : ℤ).toNat ⟨0, []⟩).elements.length : ℤ) ≤ 5)) ∧
    (sysCexController.update_element_frequency 0 5 2 = (false, sysCexController) ∧
     sysCexController.update_element_phase 0 5 2 = (false, sysCexController)) :=
  ⟨Or.inr (by simp [sysCexController]),
   C9_invalid_index_returns_false sysCexController 0 5 2 2
     (Or.inr (by simp [sysCexController]))⟩

/-- Counterexample to C9 as stated: addressing element 5 of a two-element
array does not fail with an error of any kind - the call evaluates normally
to the flag False paired with the untouched state. -/
theorem C9_counterexample :
    sysCexController.update_element_frequency 0 5 2 = (false, sysCexController) ∧
    sysCexController.update_element_phase 0 5 2 = (false, sysCexController) := by
  constructor <;> rfl

/-! ## Azimuth profile (claims C7 and C10) -/

lemma responseAt_eq_abs_sum (pa : PhasedArray) (θ : ℝ) :
    responseAt pa θ =
      Complex.abs (∑ i in Finset.range pa.num_elements, responseTerm pa θ i) := by
  unfold responseAt
  rw [foldl_add_eq_sum]

lemma abs_responseTerm (pa : PhasedArray) (θ : ℝ) (i : ℕ) :
    Complex.abs (responseTerm pa θ i) = 1 := by
  unfold responseTerm
  rw [mul_comm]
  exact Complex.abs_exp_ofReal_mul_I _

/-- C10: every value of calculate_azimuth_profile is at most the element
count, each element contributing a unit-magnitude phasor. -/
theorem C10_profile_bounded (pa : PhasedArray) (angles : List ℝ) (v : ℝ)
    (hv : v ∈ pa.calculate_azimuth_profile angles) : v ≤ pa.num_elements := by
  rcases List.mem_map.mp hv with ⟨θ, hθ, rfl⟩
  rw [responseAt_eq_abs_sum]
  calc Complex.abs (∑ i in Finset.range pa.num_elements, responseTerm pa θ i)
      ≤ ∑ i in Finset.range pa.num_elements, Complex.abs (responseTerm pa θ i) :=
        Complex.abs.sum_le _ _
    _ = pa.num_elements := by simp [abs_responseTerm]

/-- Witness for C10 at a concrete two-element array and a single angle. -/
theorem C10_profile_bounded_witness :
    responseAt (PhasedArray.init 1 2 0) 30 ∈
      (PhasedArray.init 1 2 0).calculate_azimuth_profile [30] ∧
    responseAt (PhasedArray.init 1 2 0) 30 ≤ (PhasedArray.init 1 2 0).num_elements :=
  ⟨by simp [PhasedArray.calculate_azimuth_profile],
   C10_profile_bounded (PhasedArray.init 1 2 0) [30] _
     (by simp [PhasedArray.calculate_azimuth_profile])⟩

/-- C7: with all phase offsets zero (and mirror-symmetric geometry with
matching frequencies, as the claim assumes), the azimuth profile is an even
function of the angle. -/
theorem C7_profile_symmetry (pa : PhasedArray) (θ : ℝ)
    (hphase : ∀ i < pa.num_elements, pa.phases.getD i 0 = 0)
    (hsym : ∀ i < pa.num_elements,
      pa.x_coords.getD (pa.num_elements - 1 - i) 0 = -(pa.x_coords.getD i 0) ∧
      pa.frequencies.getD (pa.num_elements - 1 - i) 0 = pa.frequencies.getD i 0) :
    responseAt pa θ = responseAt pa (-θ) := by
  rw [responseAt_eq_abs_sum, responseAt_eq_abs_sum]
  have hterm : ∀ i ∈ Finset.range pa.num_elements,
      responseTerm pa (-θ) i = (starRingEnd ℂ) (responseTerm pa θ i) := by
    intro i hi
    have hp := hphase i (Finset.mem_range.mp hi)
    unfold responseTerm
    rw [hp, ← Complex.exp_conj]
    have hs : Real.sin (-θ * Real.pi / 180) = -Real.sin (θ * Real.pi / 180) := by
      rw [show -θ * Real.pi / 180 = -(θ * Real.pi / 180) by ring, Real.sin_neg]
    rw [hs]
    congr 1
    rw [map_mul, Complex.conj_I, Complex.conj_ofReal]
    push_cast
    ring
  have hconj : (∑ i in Finset.range pa.num_elements, responseTerm pa (-θ) i) =
      (starRingEnd ℂ) (∑ i in Finset.range pa.num_elements, responseTerm pa θ i) := by
    rw [map_sum]
    exact Finset.sum_congr rfl hterm
  rw [hconj, Complex.abs_conj]

/-- Witness for C7 at the default two-element array, whose coordinates are
all zero and phases all zero. -/
theorem C7_profile_symmetry_witness :
    responseAt (PhasedArray.init 1 2 0) 30 = responseAt (PhasedArray.init 1 2 0) (-30) :=
  C7_profile_symmetry (PhasedArray.init 1 2 0) 30
    (by
      intro i hi
      simp [PhasedArray.init] at hi
      interval_cases i <;> simp [PhasedArray.init])
    (by
      intro i hi
      simp [PhasedArray.init] at hi
      interval_cases i <;> constructor <;> simp [PhasedArray.init])

/-! ## Normalized total field (claim C3) -/

/-- C3: every entry of the normalized total field lies in the unit interval;
the degenerate branch returns zeros, which also lie there. -/
theorem C3_field_normalized (pa : PhasedArray) (grid : List (ℝ × ℝ)) (v : ℝ)
    (hv : v ∈ calculate_total_field pa grid) : 0 ≤ v ∧ v ≤ 1 := by
  simp only [calculate_total_field, normalize01] at hv
  by_cases hdeg : listMax (((pa.get_electric_field grid).map Complex.abs).map
      (fun v => Real.log (1 + v))) - listMin (((pa.get_electric_field grid).map
      Complex.abs).map (fun v => Real.log (1 + v))) < 1e-12
  · rw [if_pos hdeg] at hv
    have hv0 : v = 0 := List.eq_of_mem_replicate hv
    subst hv0
    norm_num
  · rw [if_neg hdeg] at hv
    rcases List.mem_map.mp hv with ⟨w, hw, rfl⟩
    have h1 := listMin_le _ w hw
    have h2 := le_listMax _ w hw
    have h12 : (0 : ℝ) < 1e-12 := by norm_num
    have hpos : 0 < listMax (((pa.get_electric_field grid).map Complex.abs).map
        (fun v => Real.log (1 + v))) - listMin (((pa.get_electric_field grid).map
        Complex.abs).map (fun v => Real.log (1 + v))) := by
      have := not_lt.mp hdeg
      linarith
    constructor
    · exact div_nonneg (by linarith) hpos.le
    · rw [div_le_one hpos]
      linarith

/-! ## Electric field (claim C1) -/

lemma fieldAt_eq_sum (pa : PhasedArray) (p : ℝ × ℝ) :
    fieldAt pa p = ∑ i in Finset.range pa.num_elements, fieldContrib pa p i := by
  unfold fieldAt
  rw [foldl_add_eq_sum]

lemma ofReal_mul_exp_I_im (a b : ℝ) :
    ((a : ℂ) * Complex.exp (Complex.I * (b : ℂ))).im = a * Real.sin b := by
  rw [mul_comm Complex.I ((b : ℝ) : ℂ)]
  simp [Complex.mul_im, Complex.exp_ofReal_mul_I_re, Complex.exp_ofReal_mul_I_im]

lemma ofReal_mul_exp_I_re (a b : ℝ) :
    ((a : ℂ) * Complex.exp (Complex.I * (b : ℂ))).re = a * Real.cos b := by
  rw [mul_comm Complex.I ((b : ℝ) : ℂ)]
  simp [Complex.mul_re, Complex.exp_ofReal_mul_I_re, Complex.exp_ofReal_mul_I_im]

/-- C1 (amended): get_electric_field preserves the grid's shape, and entry j
is the complex phasor sum over elements of (1/r) * exp(i*(k_i*r + phase_i))
with r the element-to-point distance clamped below by 1e-6 - amplitude 1/r,
complex-valued, with no frequency-ratio weighting and no r^0.3 decay. -/
theorem C1_complex_field (pa : PhasedArray) (grid : List (ℝ × ℝ)) (j : ℕ)
    (hj : j < grid.length) :
    (pa.get_electric_field grid).length = grid.length ∧
    (pa.get_electric_field grid).getD j 0 =
      ∑ i in Finset.range pa.num_elements,
        ((1 / clampedDist pa (grid.getD j (0, 0)) i : ℝ) : ℂ) *
          Complex.exp (Complex.I *
            ((k_vec pa i * clampedDist pa (grid.getD j (0, 0)) i +
              pa.phases.getD i 0 : ℝ) : ℂ)) := by
  constructor
  · simp [PhasedArray.get_electric_field]
  · unfold PhasedArray.get_electric_field
    rw [getD_map_of_lt (fieldAt pa) grid j hj (0, 0) 0, fieldAt_eq_sum]
    rfl

/-- Witness for the amended C1 on a one-element array and a one-point grid. -/
theorem C1_complex_field_witness :
    0 < ([((1 : ℝ), (0 : ℝ))] : List (ℝ × ℝ)).length ∧
    (((PhasedArray.init 1 1 0).get_electric_field [((1 : ℝ), (0 : ℝ))]).length =
      ([((1 : ℝ), (0 : ℝ))] : List (ℝ × ℝ)).length ∧
    ((PhasedArray.init 1 1 0).get_electric_field [((1 : ℝ), (0 : ℝ))]).getD 0 0 =
      ∑ i in Finset.range (PhasedArray.init 1 1 0).num_elements,
        ((1 / clampedDist (PhasedArray.init 1 1 0)
            (([((1 : ℝ), (0 : ℝ))] : List (ℝ × ℝ)).getD 0 (0, 0)) i : ℝ) : ℂ) *
          Complex.exp (Complex.I *
            ((k_vec (PhasedArray.init 1 1 0) i *
              clampedDist (PhasedArray.init 1 1 0)
                (([((1 : ℝ), (0 : ℝ))] : List (ℝ × ℝ)).getD 0 (0, 0)) i +
              (PhasedArray.init 1 1 0).phases.getD i 0 : ℝ) : ℂ))) :=
  ⟨by simp, C1_complex_field (PhasedArray.init 1 1 0) [((1 : ℝ), (0 : ℝ))] 0 (by simp)⟩

/-- Field evaluation as claim C1 words it, for refutation: each element
contributes a real-valued sinusoid with amplitude
(frequency_i / max(frequencies)) / r^0.3 and phase k_i*r + phase_i, and the
contributions are summed into a real scalar. -/
def fieldAt_claimed (pa : PhasedArray) (p : ℝ × ℝ) : ℝ :=
  ∑ i in Finset.range pa.num_elements,
    ((pa.frequencies.getD i 0 / listMax pa.frequencies) /
        clampedDist pa p i ^ (0.3 : ℝ)) *
      Real.cos (k_vec pa i * clampedDist pa p i + pa.phases.getD i 0)

/-- The concrete one-element array with frequency 3e8, so the wavenumber is
2*pi, written as an explicit record. -/
def fieldCexBase : PhasedArray :=
  { id := 1, num_elements := 1, curvature := 0, frequencies := [3e8],
    x_coords := [0], y_coords := [0], phases := [0], c := 3e8 }

/-- The same array reached through the embedded operations. -/
def fieldCexArray : PhasedArray := (PhasedArray.init 1 1 0).update_frequencies [3e8]

/-- Counterexample to C1 as stated: at grid point (0.25, 0) the computed
field is the purely imaginary 4i (so not any real-valued sum), and at grid
point (0.5, 0) the computed value -2 differs from the claimed real sinusoid
sum -(0.5^0.3)^(-1), refuting the (freq/max freq)/r^0.3 amplitude law. -/
theorem C1_counterexample :
    fieldAt fieldCexArray (0.25, 0) ≠ ((fieldAt_claimed fieldCexArray (0.25, 0) : ℝ) : ℂ) ∧
    fieldAt fieldCexArray (0.5, 0) ≠ ((fieldAt_claimed fieldCexArray (0.5, 0) : ℝ) : ℂ) := by
  have heq : fieldCexArray = fieldCexBase := by
    unfold fieldCexArray fieldCexBase PhasedArray.update_frequencies PhasedArray.init
    norm_num
  have hphase0 : fieldCexBase.phases.getD 0 0 = 0 := by
    simp [fieldCexBase]
  have hk : k_vec fieldCexBase 0 = 2 * Real.pi := by
    unfold k_vec fieldCexBase
    simp only [List.getD_cons_zero]
    rw [mul_div_assoc]
    norm_num
  have hclamp1 : clampedDist fieldCexBase (0.25, 0) 0 = 0.25 := by
    unfold clampedDist fieldCexBase
    simp only [List.getD_cons_zero]
    rw [show ((0.25 : ℝ), (0 : ℝ)).1 - 0 = (0.25 : ℝ) by norm_num,
      show ((0.25 : ℝ), (0 : ℝ)).2 - 0 = (0 : ℝ) by norm_num]
    rw [show (0.25 : ℝ) ^ 2 + (0 : ℝ) ^ 2 = (0.25 : ℝ) ^ 2 by norm_num]
    rw [Real.sqrt_sq (by norm_num : (0 : ℝ) ≤ 0.25)]
    exact max_eq_left (by norm_num)
  have hclamp2 : clampedDist fieldCexBase (0.5, 0) 0 = 0.5 := by
    unfold clampedDist fieldCexBase
    simp only [List.getD_cons_zero]
    rw [show ((0.5 : ℝ), (0 : ℝ)).1 - 0 = (0.5 : ℝ) by norm_num,
      show ((0.5 : ℝ), (0 : ℝ)).2 - 0 = (0 : ℝ) by norm_num]
    rw [show (0.5 : ℝ) ^ 2 + (0 : ℝ) ^ 2 = (0.5 : ℝ) ^ 2 by norm_num]
    rw [Real.sqrt_sq (by norm_num : (0 : ℝ) ≤ 0.5)]
    exact max_eq_left (by norm_num)
  have harg1 : k_vec fieldCexBase 0 * clampedDist fieldCexBase (0.25, 0) 0 +
      fieldCexBase.phases.getD 0 0 = Real.pi / 2 := by
    rw [hk, hclamp1, hphase0]
    ring
  have harg2 : k_vec fieldCexBase 0 * clampedDist fieldCexBase (0.5, 0) 0 +
      fieldCexBase.phases.getD 0 0 = Real.pi := by
    rw [hk, hclamp2, hphase0]
    ring
  have hone : fieldCexBase.num_elements = 1 := rfl
  have him1 : (fieldAt fieldCexBase (0.25, 0)).im = 4 := by
    rw [fieldAt_eq_sum, hone, Finset.sum_range_one]
    unfold fieldContrib
    rw [harg1, ofReal_mul_exp_I_im, hclamp1, Real.sin_pi_div_two]
    norm_num
  have hre2 : (fieldAt fieldCexBase (0.5, 0)).re = -2 := by
    rw [fieldAt_eq_sum, hone, Finset.sum_range_one]
    unfold fieldContrib
    rw [harg2, ofReal_mul_exp_I_re, hclamp2, Real.cos_pi]
    norm_num
  have hclaimed2 : fieldAt_claimed fieldCexBase (0.5, 0) = -((0.5 : ℝ) ^ (0.3 : ℝ))⁻¹ := by
    unfold fieldAt_claimed
    rw [hone, Finset.sum_range_one, harg2, hclamp2, Real.cos_pi]
    rw [show fieldCexBase.frequencies.getD 0 0 = 3e8 from rfl,
      show listMax fieldCexBase.frequencies = 3e8 from rfl]
    rw [show (3e8 : ℝ) / 3e8 = 1 by norm_num]
    rw [one_div]
    ring
  constructor
  · rw [heq]
    intro h
    have him := congrArg Complex.im h
    rw [Complex.ofReal_im, him1] at him
    norm_num at him
  · rw [heq]
    intro h
    have hre := congrArg Complex.re h
    rw [Complex.ofReal_re, hre2, hclaimed2] at hre
    have hlt : (0.5 : ℝ) < (0.5 : ℝ) ^ (0.3 : ℝ) := by
      have hx := Real.rpow_lt_rpow_of_exponent_gt
        (show (0 : ℝ) < 0.5 by norm_num) (show (0.5 : ℝ) < 1 by norm_num)
        (show (0.3 : ℝ) < 1 by norm_num)
      rwa [Real.rpow_one] at hx
    have hinv : ((0.5 : ℝ) ^ (0.3 : ℝ))⁻¹ < 2 := by
      have hx := inv_lt_inv_of_lt (show (0 : ℝ) < 0.5 by norm_num) hlt
      rw [show ((0.5 : ℝ))⁻¹ = 2 by norm_num] at hx
      exact hx
    have : ((0.5 : ℝ) ^ (0.3 : ℝ))⁻¹ = 2 := by linarith
    linarith

/-- Witness for C3 on a one-point grid, which is degenerate and therefore
normalizes to the all-zero array. -/
theorem C3_field_normalized_witness :
    (0 : ℝ) ∈ calculate_total_field (PhasedArray.init 1 1 0) [((1 : ℝ), (0 : ℝ))] ∧
    (0 ≤ (0 : ℝ) ∧ (0 : ℝ) ≤ 1) :=
  ⟨by
    unfold calculate_total_field PhasedArray.get_electric_field
    simp only [List.map_cons, List.map_nil]
    unfold normalize01
    simp only [listMax, listMin, List.foldl_nil]
    rw [sub_self, if_pos (by norm_num : (0 : ℝ) < 1e-12)]
    simp,
   C3_field_normalized (PhasedArray.init 1 1 0) [((1 : ℝ), (0 : ℝ))] 0 (by
    unfold calculate_total_field PhasedArray.get_electric_field
    simp only [List.map_cons, List.map_nil]
    unfold normalize01
    simp only [listMax, listMin, List.foldl_nil]
    rw [sub_self, if_pos (by norm_num : (0 : ℝ) < 1e-12)]
    simp)⟩
